import Mathlib

/-!
# ClipX — verification of the clipboard-history core

Shallow embedding of the ClipX clipboard manager (`clipboard_monitor.py`,
`hotkey_handler.py`, `popup_window.py`) and proofs of the specified
properties: deduplication and cap invariants of the history store,
persistence round-trip (base64 image payloads, ISO-8601 timestamps),
poll idempotence, delete bounds, the hotkey filter, and the popup
position engine.

Strings are modelled as `List Char`, byte strings as `List Nat` with
values below 256 where byte-level reasoning matters.
-/

namespace ClipX

/-! ## Decimal digits

Helpers for the fixed-width decimal fields of ISO-8601 timestamps
(`datetime.isoformat` / `datetime.fromisoformat` in the source use
zero-padded decimal fields). -/

/-- The character for one decimal digit; values ≥ 9 all render as `'9'`
(never reached on digit input). -/
def digitChar : Nat → Char
  | 0 => '0' | 1 => '1' | 2 => '2' | 3 => '3' | 4 => '4'
  | 5 => '5' | 6 => '6' | 7 => '7' | 8 => '8' | _ => '9'

/-- Numeric value of a decimal digit character. -/
def digitVal (c : Char) : Nat := c.toNat - 48

/-- Whether a character is an ASCII decimal digit. -/
def isDigitChar (c : Char) : Bool := 48 ≤ c.toNat && c.toNat ≤ 57

/-- Zero-padded fixed-width decimal rendering, most significant digit first. -/
def padDigits : Nat → Nat → List Char
  | 0, _ => []
  | w + 1, n => padDigits w (n / 10) ++ [digitChar (n % 10)]

/-- Value of a digit string, most significant digit first. -/
def parseDigits (s : List Char) : Nat := s.foldl (fun a c => a * 10 + digitVal c) 0

theorem digitVal_digitChar {r : Nat} (h : r < 10) : digitVal (digitChar r) = r := by
  have key : ∀ v : Fin 10, digitVal (digitChar v.val) = v.val := by decide
  exact key ⟨r, h⟩

theorem digitChar_of_big (k : Nat) : digitChar (k + 9) = '9' := rfl

theorem isDigitChar_digitChar (r : Nat) : isDigitChar (digitChar r) = true := by
  rcases Nat.lt_or_ge r 9 with h | h
  · have key : ∀ v : Fin 9, isDigitChar (digitChar v.val) = true := by decide
    exact key ⟨r, h⟩
  · obtain ⟨k, rfl⟩ := Nat.exists_eq_add_of_le h
    rw [Nat.add_comm, digitChar_of_big]
    rfl

theorem parseDigits_append_singleton (xs : List Char) (c : Char) :
    parseDigits (xs ++ [c]) = parseDigits xs * 10 + digitVal c := by
  simp [parseDigits, List.foldl_append]

theorem parseDigits_padDigits : ∀ (w n : Nat), n < 10 ^ w →
    parseDigits (padDigits w n) = n := by
  intro w
  induction w with
  | zero =>
      intro n h
      interval_cases n
      rfl
  | succ w ih =>
      intro n h
      have hdiv : n / 10 < 10 ^ w := by
        apply Nat.div_lt_of_lt_mul
        rw [pow_succ] at h
        omega
      rw [padDigits, parseDigits_append_singleton, ih _ hdiv,
        digitVal_digitChar (Nat.mod_lt n (by norm_num))]
      omega

theorem padDigits_length (w n : Nat) : (padDigits w n).length = w := by
  induction w generalizing n with
  | zero => rfl
  | succ w ih => simp [padDigits, ih]

theorem padDigits_all_digits (w n : Nat) : (padDigits w n).all isDigitChar = true := by
  induction w generalizing n with
  | zero => rfl
  | succ w ih => simp [padDigits, ih, isDigitChar_digitChar]

/-! ## Python `datetime` (naive), ISO format

Modelled from the Python standard library as used by the source:
`datetime.isoformat()` emits `YYYY-MM-DDTHH:MM:SS` and appends
`.ffffff` exactly when the microsecond field is nonzero;
`datetime.fromisoformat` parses those shapes back. -/

structure PyDateTime where
  year : Nat
  month : Nat
  day : Nat
  hour : Nat
  minute : Nat
  second : Nat
  microsecond : Nat
deriving DecidableEq, Repr

/-- Field-width bounds guaranteed by every real `datetime` value. -/
def PyDateTime.Valid (d : PyDateTime) : Prop :=
  d.year < 10000 ∧ d.month < 100 ∧ d.day < 100 ∧ d.hour < 100 ∧
  d.minute < 100 ∧ d.second < 100 ∧ d.microsecond < 1000000

instance (d : PyDateTime) : Decidable d.Valid := by
  unfold PyDateTime.Valid; infer_instance

/-- `datetime.isoformat()` (naive datetime, default separator). -/
def isoformat (d : PyDateTime) : List Char :=
  padDigits 4 d.year ++ ('-' :: (padDigits 2 d.month ++ ('-' :: (padDigits 2 d.day ++
  ('T' :: (padDigits 2 d.hour ++ (':' :: (padDigits 2 d.minute ++ (':' :: (padDigits 2 d.second ++
  (if d.microsecond = 0 then [] else '.' :: padDigits 6 d.microsecond)))))))))))

/-- Read exactly `w` decimal digits, returning their value and the rest. -/
def readFixed (w : Nat) (s : List Char) : Option (Nat × List Char) :=
  if (s.take w).length = w ∧ (s.take w).all isDigitChar then
    some (parseDigits (s.take w), s.drop w)
  else none

/-- Consume one expected character. -/
def expectChar (c : Char) : List Char → Option (List Char)
  | [] => none
  | x :: rest => if x = c then some rest else none

/-- `datetime.fromisoformat`, on the shapes `isoformat` produces. -/
def fromisoformat (s : List Char) : Option PyDateTime := do
  let (y, s) ← readFixed 4 s
  let s ← expectChar '-' s
  let (mo, s) ← readFixed 2 s
  let s ← expectChar '-' s
  let (dy, s) ← readFixed 2 s
  let s ← expectChar 'T' s
  let (h, s) ← readFixed 2 s
  let s ← expectChar ':' s
  let (mi, s) ← readFixed 2 s
  let s ← expectChar ':' s
  let (sec, s) ← readFixed 2 s
  match s with
  | [] => some ⟨y, mo, dy, h, mi, sec, 0⟩
  | c :: rest =>
    if c = '.' then do
      let (us, rest2) ← readFixed 6 rest
      if rest2 = [] then some ⟨y, mo, dy, h, mi, sec, us⟩ else none
    else none

theorem readFixed_padDigits (w n : Nat) (rest : List Char) (h : n < 10 ^ w) :
    readFixed w (padDigits w n ++ rest) = some (n, rest) := by
  have hlen : (padDigits w n).length = w := padDigits_length w n
  have htake : (padDigits w n ++ rest).take w = padDigits w n := List.take_left' hlen
  have hdrop : (padDigits w n ++ rest).drop w = rest := List.drop_left' hlen
  rw [readFixed, htake, hdrop, if_pos ⟨hlen, padDigits_all_digits w n⟩,
    parseDigits_padDigits w n h]

theorem readFixed_padDigits_nil (w n : Nat) (h : n < 10 ^ w) :
    readFixed w (padDigits w n) = some (n, []) := by
  have := readFixed_padDigits w n [] h
  simpa using this

theorem fromisoformat_isoformat (d : PyDateTime) (hv : d.Valid) :
    fromisoformat (isoformat d) = some d := by
  obtain ⟨h1, h2, h3, h4, h5, h6, h7⟩ := hv
  have e1 : ∀ (c : Char) (rest : List Char), expectChar c (c :: rest) = some rest := by
    intro c rest
    simp [expectChar]
  rw [isoformat, fromisoformat]
  rw [readFixed_padDigits 4 d.year _ (by simpa using h1)]
  simp only [Option.bind_eq_bind, Option.some_bind]
  rw [e1]
  simp only [Option.some_bind]
  rw [readFixed_padDigits 2 d.month _ (by simpa using h2)]
  simp only [Option.some_bind]
  rw [e1]
  simp only [Option.some_bind]
  rw [readFixed_padDigits 2 d.day _ (by simpa using h3)]
  simp only [Option.some_bind]
  rw [e1]
  simp only [Option.some_bind]
  rw [readFixed_padDigits 2 d.hour _ (by simpa using h4)]
  simp only [Option.some_bind]
  rw [e1]
  simp only [Option.some_bind]
  rw [readFixed_padDigits 2 d.minute _ (by simpa using h5)]
  simp only [Option.some_bind]
  rw [e1]
  simp only [Option.some_bind]
  rw [readFixed_padDigits 2 d.second _ (by simpa using h6)]
  simp only [Option.some_bind]
  by_cases hm : d.microsecond = 0
  · rw [if_pos hm, ← hm]
  · rw [if_neg hm]
    simp only [reduceIte]
    rw [readFixed_padDigits_nil 6 d.microsecond (by simpa using h7)]
    simp only [Option.some_bind, reduceIte]

/-! ## Base64

Modelled from the Python standard library `base64.b64encode` /
`base64.b64decode` used by `_save_history` / `_load_history`.  Bytes are
naturals below 256; the encoded text is a `List Char`. -/

/-- The base64 alphabet. -/
def b64chars : List Char :=
  ['A', 'B', 'C', 'D', 'E', 'F', 'G', 'H', 'I', 'J', 'K', 'L', 'M',
   'N', 'O', 'P', 'Q', 'R', 'S', 'T', 'U', 'V', 'W', 'X', 'Y', 'Z',
   'a', 'b', 'c', 'd', 'e', 'f', 'g', 'h', 'i', 'j', 'k', 'l', 'm',
   'n', 'o', 'p', 'q', 'r', 's', 't', 'u', 'v', 'w', 'x', 'y', 'z',
   '0', '1', '2', '3', '4', '5', '6', '7', '8', '9', '+', '/']

/-- Alphabet character of a 6-bit value. -/
def b64char (n : Nat) : Char := b64chars.getD n 'A'

/-- 6-bit value of an alphabet character. -/
def b64index (c : Char) : Option Nat := b64chars.findIdx? (fun x => x = c)

/-- `base64.b64encode`: 3-byte groups to 4 characters, `=`-padded. -/
def b64encode : List Nat → List Char
  | b0 :: b1 :: b2 :: rest =>
    b64char ((b0 * 65536 + b1 * 256 + b2) / 262144) ::
    b64char ((b0 * 65536 + b1 * 256 + b2) / 4096 % 64) ::
    b64char ((b0 * 65536 + b1 * 256 + b2) / 64 % 64) ::
    b64char ((b0 * 65536 + b1 * 256 + b2) % 64) :: b64encode rest
  | [b0, b1] =>
    [b64char ((b0 * 65536 + b1 * 256) / 262144),
     b64char ((b0 * 65536 + b1 * 256) / 4096 % 64),
     b64char ((b0 * 65536 + b1 * 256) / 64 % 64), '=']
  | [b0] =>
    [b64char (b0 * 65536 / 262144), b64char (b0 * 65536 / 4096 % 64), '=', '=']
  | [] => []

/-- `base64.b64decode` on well-padded input (strict on the alphabet). -/
def b64decode : List Char → Option (List Nat)
  | [] => some []
  | c0 :: c1 :: c2 :: c3 :: rest => do
    let v0 ← b64index c0
    let v1 ← b64index c1
    if c2 = '=' then
      if c3 = '=' ∧ rest = [] then some [v0 * 4 + v1 / 16] else none
    else do
      let v2 ← b64index c2
      if c3 = '=' then
        if rest = [] then some [v0 * 4 + v1 / 16, v1 % 16 * 16 + v2 / 4] else none
      else do
        let v3 ← b64index c3
        let tail ← b64decode rest
        some ((v0 * 4 + v1 / 16) :: (v1 % 16 * 16 + v2 / 4) :: (v2 % 4 * 64 + v3) :: tail)
  | _ => none

theorem b64index_b64char {v : Nat} (h : v < 64) : b64index (b64char v) = some v := by
  have key : ∀ v : Fin 64, b64index (b64char v.val) = some v.val := by decide
  exact key ⟨v, h⟩

theorem b64char_ne_pad {v : Nat} (h : v < 64) : (b64char v = '=') = False := by
  have key : ∀ v : Fin 64, ¬ (b64char v.val = '=') := by decide
  simp only [eq_iff_iff, iff_false]
  exact key ⟨v, h⟩

/-- Decoding inverts encoding on genuine byte strings. -/
theorem b64decode_b64encode : ∀ (bs : List Nat), (∀ b ∈ bs, b < 256) →
    b64decode (b64encode bs) = some bs := by
  intro bs h
  match bs with
  | [] => rfl
  | [b0] =>
      have hb0 : b0 < 256 := h b0 (by simp)
      rw [b64encode, b64decode]
      rw [b64index_b64char (by omega), b64index_b64char (by omega)]
      simp only [Option.bind_eq_bind, Option.some_bind, reduceIte, if_pos rfl]
      simp only [and_self, reduceIte, Option.some.injEq, List.cons.injEq, and_true]
      omega
  | [b0, b1] =>
      have hb0 : b0 < 256 := h b0 (by simp)
      have hb1 : b1 < 256 := h b1 (by simp)
      rw [b64encode, b64decode]
      rw [b64index_b64char (by omega), b64index_b64char (by omega)]
      simp only [Option.bind_eq_bind, Option.some_bind,
        b64char_ne_pad (by omega : (b0 * 65536 + b1 * 256) / 64 % 64 < 64), if_false]
      rw [b64index_b64char (by omega)]
      simp only [Option.some_bind, if_pos rfl, reduceIte, Option.some.injEq, List.cons.injEq,
        and_true]
      constructor
      · omega
      · omega
  | b0 :: b1 :: b2 :: rest =>
      have hb0 : b0 < 256 := h b0 (by simp)
      have hb1 : b1 < 256 := h b1 (by simp)
      have hb2 : b2 < 256 := h b2 (by simp)
      have ih := b64decode_b64encode rest (fun b hb => h b (by simp [hb]))
      rw [b64encode, b64decode]
      rw [b64index_b64char (by omega), b64index_b64char (by omega)]
      simp only [Option.bind_eq_bind, Option.some_bind,
        b64char_ne_pad (by omega : (b0 * 65536 + b1 * 256 + b2) / 64 % 64 < 64), if_false]
      rw [b64index_b64char (by omega)]
      simp only [Option.some_bind,
        b64char_ne_pad (by omega : (b0 * 65536 + b1 * 256 + b2) % 64 < 64), if_false]
      rw [b64index_b64char (by omega), ih]
      simp only [Option.some_bind, Option.some.injEq, List.cons.injEq, and_true]
      refine ⟨by omega, by omega, by omega⟩
termination_by bs => bs.length

/-! ## Clipboard data model (`clipboard_monitor.py`)

Text is a `List Char`; image payloads are byte strings (`List Nat`,
values < 256 in every reachable state).  The `thumbnail` field holds an
`NSImage` in the source; only its presence is observable here. -/

structure ClipboardItem where
  content_type : String
  timestamp : PyDateTime
  text_content : Option (List Char) := none
  image_data : Option (List Nat) := none
  thumbnail : Bool := false
deriving DecidableEq, Repr

/-- Python truthiness of an optional string (`None` and `""` are falsy). -/
def truthyText : Option (List Char) → Bool
  | none => false
  | some t => !t.isEmpty

/-- Python truthiness of optional bytes (`None` and `b""` are falsy). -/
def truthyBytes : Option (List Nat) → Bool
  | none => false
  | some b => !b.isEmpty

/-- Whitespace for Python `str.strip()` / `str.isspace()` (ASCII part). -/
def pyIsSpace (c : Char) : Bool :=
  c = ' ' || c = '\t' || c = '\n' || c = '\x0b' || c = '\x0c' || c = '\r'

/-- Python `str.strip()`: drop whitespace from both ends. -/
def pyStrip (s : List Char) : List Char :=
  ((s.dropWhile pyIsSpace).reverse.dropWhile pyIsSpace).reverse

/-- `ClipboardItem.preview`: truncated display preview. -/
def ClipboardItem.preview (it : ClipboardItem) : List Char :=
  if it.content_type = "image" then "Image".toList
  else match it.text_content with
    | some t =>
      if t.isEmpty then "Empty".toList
      else
        let text := pyStrip (t.map fun c => if c = '\n' then ' ' else c)
        if text.length > 200 then text.take 197 ++ "...".toList else text
    | none => "Empty".toList

/-! ## `ClipboardMonitor._add_to_history` -/

/-- Arguments of one `_add_to_history` call (`now` is the wall-clock
timestamp the call would read). -/
structure AddCall where
  content_type : String
  text_content : Option (List Char) := none
  image_data : Option (List Nat) := none
  thumbnail : Bool := false
  now : PyDateTime
deriving DecidableEq, Repr

/-- The `ClipboardItem` constructed and prepended by `_add_to_history`. -/
def mkItem (a : AddCall) : ClipboardItem :=
  { content_type := a.content_type, timestamp := a.now,
    text_content := a.text_content, image_data := a.image_data,
    thumbnail := a.thumbnail }

/-- The deduplication pass of `_add_to_history`: drop existing entries
identical to the incoming content (per content type). -/
def dedupFilter (a : AddCall) (history : List ClipboardItem) : List ClipboardItem :=
  if a.content_type = "text" ∧ truthyText a.text_content then
    history.filter fun it =>
      decide ¬(it.content_type = "text" ∧ it.text_content = a.text_content)
  else if a.content_type = "image" ∧ truthyBytes a.image_data then
    history.filter fun it =>
      decide ¬(it.content_type = "image" ∧ it.image_data = a.image_data)
  else if a.content_type = "mixed" ∧ truthyText a.text_content ∧ truthyBytes a.image_data then
    history.filter fun it =>
      decide ¬(it.content_type = "mixed" ∧ it.text_content = a.text_content ∧
               it.image_data = a.image_data)
  else history

/-- `_add_to_history`: dedup, prepend, trim to `max_history`. -/
def addToHistory (max_history : Nat) (a : AddCall) (history : List ClipboardItem) :
    List ClipboardItem :=
  let h2 := mkItem a :: dedupFilter a history
  if h2.length > max_history then h2.take max_history else h2

/-- Replay a sequence of `_add_to_history` calls on an empty store. -/
def applyAdds (max_history : Nat) (calls : List AddCall) : List ClipboardItem :=
  calls.foldl (fun h a => addToHistory max_history a h) []

/-! ## Persistence (`_save_history` / `_load_history`) -/

/-- One record of the persisted JSON array.  The `image_data` key is
present exactly when the in-memory item had truthy image bytes. -/
structure StoredItem where
  content_type : String
  timestamp : List Char
  text_content : Option (List Char)
  image_data : Option (List Char) := none
deriving DecidableEq, Repr

/-- `_save_history`, per item: ISO-format the timestamp, base64-encode
truthy image bytes. -/
def saveItem (it : ClipboardItem) : StoredItem :=
  { content_type := it.content_type
    timestamp := isoformat it.timestamp
    text_content := it.text_content
    image_data := match it.image_data with
      | some bs => if bs.isEmpty then none else some (b64encode bs)
      | none => none }

/-- `_save_history`: the JSON array written to disk. -/
def saveHistory (history : List ClipboardItem) : List StoredItem :=
  history.map saveItem

/-- External image machinery used while loading: whether
`NSImage.initWithData_` accepts the bytes, and whether
`create_thumbnail` then returns a thumbnail. -/
structure LoadEnv where
  imgOk : List Nat → Bool
  thumbOk : List Nat → Bool

/-- `_load_history`, per record.  `none` models an exception
(bad base64, then bad timestamp) escaping to the outer handler. -/
def loadItem (env : LoadEnv) (sit : StoredItem) : Option ClipboardItem := do
  let (image_data, thumbnail) ←
    match sit.image_data with
    | some s =>
      if s.isEmpty then some ((none : Option (List Nat)), false)
      else
        match b64decode s with
        | some bs => some (some bs, env.imgOk bs && env.thumbOk bs)
        | none => none
    | none => some (none, false)
  let ts ← fromisoformat sit.timestamp
  some { content_type := sit.content_type, timestamp := ts,
         text_content := sit.text_content, image_data := image_data,
         thumbnail := thumbnail }

/-- The record loop of `_load_history`: records are appended one at a
time; an exception aborts the loop, keeping what was already loaded. -/
def loadItems (env : LoadEnv) : List StoredItem → List ClipboardItem
  | [] => []
  | sit :: rest =>
    match loadItem env sit with
    | some it => it :: loadItems env rest
    | none => []

/-- `_load_history`: a missing/unreadable/malformed file (`none`) is
swallowed and yields the empty history. -/
def loadHistory (env : LoadEnv) : Option (List StoredItem) → List ClipboardItem
  | none => []
  | some items => loadItems env items

/-! ## Poll step (`ClipboardMonitor._check_clipboard`) and
`ClipboardMonitor.delete_item` -/

/-- Pasteboard type identifiers (opaque names suffice). -/
def NSPasteboardTypePNG : String := "public.png"

def NSPasteboardTypeTIFF : String := "public.tiff"

/-- Snapshot of the system pasteboard during one poll. -/
structure Pasteboard where
  changeCount : Nat
  stringContent : Option (List Char)
  types : List String
  pngData : Option (List Nat)
  tiffData : Option (List Nat)

/-- External image machinery used while polling: `NSImage.initWithData_`
success, `image_to_png_data` on the decoded TIFF image, and
`create_thumbnail` success. -/
structure PollEnv where
  nsImageOk : List Nat → Bool
  imageToPng : List Nat → Option (List Nat)
  thumbOk : List Nat → Bool

/-- Mutable monitor state touched by `_check_clipboard`. -/
structure MonitorState where
  history : List ClipboardItem
  lastChangeCount : Nat
deriving Repr

/-- `text_content and text_content.strip()` truthiness. -/
def pollHasText (text : Option (List Char)) : Bool :=
  truthyText text && !(pyStrip (text.getD [])).isEmpty

/-- The image-probing block of `_check_clipboard`: PNG preferred over
TIFF; returns (image object present, PNG payload for storage, raw bytes
the `NSImage` was built from). -/
def probeImage (env : PollEnv) (pb : Pasteboard) :
    Bool × Option (List Nat) × Option (List Nat) :=
  if !pb.types.isEmpty then
    if pb.types.contains NSPasteboardTypePNG then
      match pb.pngData with
      | some d =>
        if d.isEmpty then (false, none, none)
        else (env.nsImageOk d, some d, some d)
      | none => (false, none, none)
    else if pb.types.contains NSPasteboardTypeTIFF then
      match pb.tiffData with
      | some d =>
        if d.isEmpty then (false, none, none)
        else if env.nsImageOk d then (true, env.imageToPng d, some d)
        else (false, none, none)
      | none => (false, none, none)
    else (false, none, none)
  else (false, none, none)

/-- `has_image`: an `NSImage` was created and PNG payload is available. -/
def pollHasImage (env : PollEnv) (pb : Pasteboard) : Bool :=
  (probeImage env pb).1 && (probeImage env pb).2.1.isSome

/-- `_check_clipboard`.  Returns the new state and whether the
`on_change` callback fires (it fires exactly when an entry is added). -/
def checkClipboard (env : PollEnv) (pb : Pasteboard) (now : PyDateTime)
    (max_history : Nat) (st : MonitorState) : MonitorState × Bool :=
  if pb.changeCount = st.lastChangeCount then (st, false)
  else
    let text := pb.stringContent
    let has_text := pollHasText text
    let probe := probeImage env pb
    let image_data := probe.2.1
    let has_image := probe.1 && image_data.isSome
    let thumbnail := has_image && env.thumbOk (probe.2.2.getD [])
    let content_type :=
      if has_text && has_image then some "mixed"
      else if has_image then some "image"
      else if has_text then some "text"
      else none
    match content_type with
    | none => ({ history := st.history, lastChangeCount := pb.changeCount }, false)
    | some ct =>
      ({ history := addToHistory max_history
           { content_type := ct
             text_content := if has_text then text else none
             image_data := image_data
             thumbnail := thumbnail
             now := now } st.history
         lastChangeCount := pb.changeCount }, true)

/-- `ClipboardMonitor.delete_item`: returns (deleted, new history,
persisted to disk). -/
def deleteItem (index : Int) (history : List ClipboardItem) :
    Bool × List ClipboardItem × Bool :=
  if 0 ≤ index ∧ index < history.length then
    (true, history.eraseIdx index.toNat, true)
  else
    (false, history, false)

/-! ## Hotkey filter (`HotkeyHandler._event_callback`) -/

def kCGEventKeyDown : Nat := 10

def kCGEventFlagMaskControl : Nat := 262144

def kCGEventFlagMaskAlternate : Nat := 524288

def kCGEventFlagMaskCommand : Nat := 1048576

/-- Key code for the letter `V`. -/
def KEY_V : Nat := 9

structure KeyEvent where
  keyCode : Nat
  flags : Nat
deriving DecidableEq, Repr

/-- Observable outcome of one `_event_callback` invocation: the value
returned to the event tap (`none` = event suppressed), how many times
`on_trigger` ran, and whether the app was told to terminate. -/
structure CallbackResult where
  returned : Option KeyEvent
  triggerCount : Nat
  terminated : Bool
deriving DecidableEq, Repr

/-- `HotkeyHandler._event_callback` for a handler whose `on_trigger` is
set iff `onTriggerSet`. -/
def eventCallback (onTriggerSet : Bool) (eventType : Nat) (ev : KeyEvent) :
    CallbackResult :=
  if eventType = kCGEventKeyDown then
    if ev.keyCode = 8 ∧ ev.flags &&& kCGEventFlagMaskControl ≠ 0 then
      { returned := none, triggerCount := 0, terminated := true }
    else if ev.keyCode = KEY_V ∧ ev.flags &&& kCGEventFlagMaskCommand ≠ 0 ∧
            ev.flags &&& kCGEventFlagMaskAlternate ≠ 0 then
      { returned := none, triggerCount := if onTriggerSet then 1 else 0,
        terminated := false }
    else
      { returned := some ev, triggerCount := 0, terminated := false }
  else
    { returned := some ev, triggerCount := 0, terminated := false }

/-! ## Position engine (`calculate_popup_position`, `popup_window.py`)

Coordinates are rationals (the source computes with IEEE doubles; every
operation used — add, subtract, halve, compare — is exact on the
geometries of interest). -/

/-- `ElementRect` from `accessibility.py` (AX coordinates: Y grows
downward from the top of the primary screen). -/
structure ElementRect where
  x : ℚ
  y : ℚ
  width : ℚ
  height : ℚ

/-- `ElementRect.center_x`. -/
def ElementRect.center_x (r : ElementRect) : ℚ := r.x + r.width / 2

/-- An `NSScreen`: full frame and visible (dock/menu-bar-excluded)
frame, both in Cocoa coordinates. -/
structure Screen where
  frameX : ℚ
  frameY : ℚ
  frameW : ℚ
  frameH : ℚ
  visX : ℚ
  visY : ℚ
  visW : ℚ
  visH : ℚ

/-- `elem_top_cocoa`: the element's top edge flipped to Cocoa
coordinates using the primary screen's frame height. -/
def elemTopCocoa (primary : Screen) (r : ElementRect) : ℚ :=
  primary.frameH - r.y

/-- `elem_bottom_cocoa`: the element's bottom edge in Cocoa coordinates. -/
def elemBottomCocoa (primary : Screen) (r : ElementRect) : ℚ :=
  primary.frameH - (r.y + r.height)

/-- The screen-selection loop: first screen whose visible frame contains
the element's horizontal center and flipped bottom, defaulting to the
primary screen. -/
def targetScreen (primary : Screen) (rest : List Screen) (r : ElementRect) : Screen :=
  ((primary :: rest).find? fun s =>
    decide (s.visX ≤ r.center_x ∧ r.center_x ≤ s.visX + s.visW ∧
            s.visY ≤ elemBottomCocoa primary r ∧
            elemBottomCocoa primary r ≤ s.visY + s.visH)).getD primary

/-- `y_below`: Cocoa y of the popup's bottom-left for the below placement. -/
def yBelowOf (primary : Screen) (r : ElementRect) (popup_height : ℚ) : ℚ :=
  (elemBottomCocoa primary r - 6) - popup_height

/-- `y_above`: Cocoa y of the popup's bottom-left for the above placement. -/
def yAboveOf (primary : Screen) (r : ElementRect) : ℚ :=
  elemTopCocoa primary r + 6

/-- `calculate_popup_position(element_rect, popup_height)` over an
explicit screen list (`NSScreen.screens()`).  Returns
`(x, y, show_above)` with `(x, y)` in Cocoa coordinates. -/
def calculate_popup_position (screens : List Screen) (element_rect : ElementRect)
    (popup_height : ℚ) : ℚ × ℚ × Bool :=
  match screens with
  | [] => (100, 100, false)
  | primary :: rest =>
    let elem_center_x := element_rect.center_x
    let target := targetScreen primary rest element_rect
    let screen_min_y := target.visY
    let screen_max_y := target.visY + target.visH
    let y_below := yBelowOf primary element_rect popup_height
    let y_above := yAboveOf primary element_rect
    let fits_below := y_below ≥ screen_min_y
    let fits_above := (y_above + popup_height) ≤ screen_max_y
    if fits_below then (elem_center_x, y_below, false)
    else if fits_above then (elem_center_x, y_above, true)
    else
      let space_below := elemBottomCocoa primary element_rect - screen_min_y
      let space_above := screen_max_y - elemTopCocoa primary element_rect
      if space_above > space_below then
        let final_y := if y_above + popup_height > screen_max_y
          then screen_max_y - popup_height else y_above
        (elem_center_x, final_y, true)
      else
        let final_y := if y_below < screen_min_y then screen_min_y else y_below
        (elem_center_x, final_y, false)

/-! ## Specification predicates -/

/-- The spec's entry identity: same content type, same text, same image
bytes (timestamps and thumbnails excluded). -/
def identClip (x y : ClipboardItem) : Prop :=
  x.content_type = y.content_type ∧ x.text_content = y.text_content ∧
  x.image_data = y.image_data

/-- Two entries collide on the deduplication key `_add_to_history`
filters by. -/
def sameKey (x y : ClipboardItem) : Prop :=
  (x.content_type = "text" ∧ y.content_type = "text" ∧
    x.text_content = y.text_content) ∨
  (x.content_type = "image" ∧ y.content_type = "image" ∧
    x.image_data = y.image_data) ∨
  (x.content_type = "mixed" ∧ y.content_type = "mixed" ∧
    x.text_content = y.text_content ∧ x.image_data = y.image_data)

/-- Shape of every entry `_check_clipboard` actually constructs: the
content type determines which payloads are (truthily) present. -/
def WFEntry (it : ClipboardItem) : Prop :=
  (it.content_type = "text" ∧ truthyText it.text_content = true) ∨
  (it.content_type = "image" ∧ it.text_content = none ∧
    truthyBytes it.image_data = true) ∨
  (it.content_type = "mixed" ∧ truthyText it.text_content = true ∧
    truthyBytes it.image_data = true)

/-- Well-formed `_add_to_history` call, as issued by `_check_clipboard`. -/
def WFAdd (a : AddCall) : Prop := WFEntry (mkItem a)

/-- Internal invariant of the history store: pairwise distinct dedup
keys, and every entry well-shaped. -/
def GoodHistory (h : List ClipboardItem) : Prop :=
  (h.Pairwise fun x y => ¬ sameKey x y) ∧ ∀ it ∈ h, WFEntry it

/-- A persisted record whose timestamp parses and whose (truthy) base64
payload decodes — i.e. anything `_save_history` can have written. -/
def GoodRecord (sit : StoredItem) : Prop :=
  (∃ d, fromisoformat sit.timestamp = some d) ∧
  ∀ s, sit.image_data = some s → s ≠ [] → ∃ bs, b64decode s = some bs

/-! ## Theorems -/

theorem find?_getD_singleton (p : Screen → Bool) (s : Screen) :
    (List.find? p [s]).getD s = s := by
  cases h : List.find? p [s] with
  | none => rfl
  | some t =>
      have ht := List.mem_of_find?_eq_some h
      simp only [List.mem_singleton] at ht
      simp [ht]

/-- C10: the display preview is the fixed string `"Image"` for image
entries regardless of text; otherwise, with text present, it is the text
with newlines replaced by spaces and surrounding whitespace stripped,
whole when ≤ 200 characters and truncated to 197 characters plus `"..."`
(total 200) when longer; with no text it is `"Empty"`. -/
theorem preview_spec (it : ClipboardItem) :
    (it.content_type = "image" → it.preview = "Image".toList) ∧
    (it.content_type ≠ "image" → ∀ t, it.text_content = some t → t ≠ [] →
      ((pyStrip (t.map fun c => if c = '\n' then ' ' else c)).length ≤ 200 →
        it.preview = pyStrip (t.map fun c => if c = '\n' then ' ' else c)) ∧
      (200 < (pyStrip (t.map fun c => if c = '\n' then ' ' else c)).length →
        it.preview =
          (pyStrip (t.map fun c => if c = '\n' then ' ' else c)).take 197 ++ "...".toList ∧
        it.preview.length = 200)) ∧
    (it.content_type ≠ "image" → (it.text_content = none ∨ it.text_content = some []) →
      it.preview = "Empty".toList) := by
  refine ⟨fun him => ?_, fun him t ht hne => ?_, fun him h0 => ?_⟩
  · simp [ClipboardItem.preview, him]
  · have hte : t.isEmpty = false := by simpa using hne
    constructor
    · intro hlen
      simp only [ClipboardItem.preview, if_neg him, ht, hte, Bool.false_eq_true, if_false]
      rw [if_neg (by omega)]
    · intro hlen
      have hpv : it.preview =
          (pyStrip (t.map fun c => if c = '\n' then ' ' else c)).take 197 ++ "...".toList := by
        simp only [ClipboardItem.preview, if_neg him, ht, hte, Bool.false_eq_true, if_false]
        rw [if_pos (by omega)]
      refine ⟨hpv, ?_⟩
      rw [hpv]
      simp only [List.length_append, List.length_take]
      have : "...".toList.length = 3 := by decide
      omega
  · rcases h0 with h0 | h0 <;>
      simp [ClipboardItem.preview, him, h0]

theorem preview_spec_witness :
    ClipboardItem.preview
        { content_type := "image", timestamp := ⟨2024, 1, 1, 0, 0, 0, 0⟩,
          text_content := some ['h', 'i'], image_data := some [1], thumbnail := false }
      = "Image".toList ∧
    ClipboardItem.preview
        { content_type := "text", timestamp := ⟨2024, 1, 1, 0, 0, 0, 0⟩,
          text_content := some [' ', 'h', '\n', 'i', ' '] }
      = pyStrip ([' ', 'h', '\n', 'i', ' '].map fun c => if c = '\n' then ' ' else c) ∧
    ClipboardItem.preview
        { content_type := "text", timestamp := ⟨2024, 1, 1, 0, 0, 0, 0⟩,
          text_content := none }
      = "Empty".toList :=
  ⟨(preview_spec _).1 rfl,
   ((preview_spec { content_type := "text", timestamp := ⟨2024, 1, 1, 0, 0, 0, 0⟩,
                    text_content := some [' ', 'h', '\n', 'i', ' '] }).2.1
      (by decide) [' ', 'h', '\n', 'i', ' '] rfl (by decide)).1 (by decide),
   (preview_spec _).2.2 (by decide) (Or.inl rfl)⟩

/-- C8: `delete_item` with an out-of-range index (negative or ≥ length)
returns `False`, leaves the history unmodified, and does not persist;
with a valid index it returns `True`, removes exactly the entry at that
position keeping all others in order, and persists. -/
theorem delete_bounds (index : Int) (h : List ClipboardItem) :
    ((index < 0 ∨ (h.length : Int) ≤ index) →
      deleteItem index h = (false, h, false)) ∧
    (0 ≤ index → index < (h.length : Int) →
      deleteItem index h =
        (true, h.take index.toNat ++ h.drop (index.toNat + 1), true)) := by
  constructor
  · intro hout
    rw [deleteItem, if_neg (by omega)]
  · intro h0 hlt
    rw [deleteItem, if_pos ⟨h0, hlt⟩, List.eraseIdx_eq_take_drop_succ]

theorem delete_bounds_witness :
    deleteItem 5 [({ content_type := "text", timestamp := ⟨2024, 1, 1, 0, 0, 0, 0⟩,
                     text_content := some ['a'] } : ClipboardItem)] =
      (false, [{ content_type := "text", timestamp := ⟨2024, 1, 1, 0, 0, 0, 0⟩,
                 text_content := some ['a'] }], false) ∧
    deleteItem 0 [({ content_type := "text", timestamp := ⟨2024, 1, 1, 0, 0, 0, 0⟩,
                     text_content := some ['a'] } : ClipboardItem)] = (true, [], true) :=
  ⟨(delete_bounds 5 _).1 (by decide),
   (delete_bounds 0 _).2 (by decide) (by decide)⟩

/-- C6: a key-down event with the key code of letter `V` (9) and both
the command and option modifier flags set fires `on_trigger` exactly
once and is suppressed (callback returns `None`); the same key code
without both modifiers fires no trigger and the event passes through
unmodified. -/
theorem hotkey_filter (ev : KeyEvent) (hv : ev.keyCode = KEY_V) :
    (ev.flags &&& kCGEventFlagMaskCommand ≠ 0 →
     ev.flags &&& kCGEventFlagMaskAlternate ≠ 0 →
      eventCallback true kCGEventKeyDown ev =
        { returned := none, triggerCount := 1, terminated := false }) ∧
    (¬(ev.flags &&& kCGEventFlagMaskCommand ≠ 0 ∧
       ev.flags &&& kCGEventFlagMaskAlternate ≠ 0) →
      eventCallback true kCGEventKeyDown ev =
        { returned := some ev, triggerCount := 0, terminated := false }) := by
  have hne : ¬(ev.keyCode = 8 ∧ ev.flags &&& kCGEventFlagMaskControl ≠ 0) := by
    rw [hv]
    rintro ⟨hc, -⟩
    exact absurd hc (by decide)
  constructor
  · intro hcmd halt
    rw [eventCallback, if_pos rfl, if_neg hne, if_pos ⟨hv, hcmd, halt⟩]
    rfl
  · intro hmods
    rw [eventCallback, if_pos rfl, if_neg hne, if_neg (fun hall => hmods ⟨hall.2.1, hall.2.2⟩)]

theorem hotkey_filter_witness :
    eventCallback true kCGEventKeyDown ⟨9, 1572864⟩ =
      { returned := none, triggerCount := 1, terminated := false } ∧
    eventCallback true kCGEventKeyDown ⟨9, 262144⟩ =
      { returned := some ⟨9, 262144⟩, triggerCount := 0, terminated := false } :=
  ⟨(hotkey_filter ⟨9, 1572864⟩ rfl).1 (by decide) (by decide),
   (hotkey_filter ⟨9, 262144⟩ rfl).2 (by decide)⟩

/-- C5: with the focused element at AX coordinates y=100, height=20 on a
1000-unit-tall primary screen and a 200-unit-tall popup, the popup is
placed below: `show_above = false` and y = (1000 − 120 − 6) − 200 = 674,
for every element x/width and screen width. -/
theorem popup_below_fits (W x w : ℚ) :
    calculate_popup_position [⟨0, 0, W, 1000, 0, 0, W, 1000⟩]
        ⟨x, 100, w, 20⟩ 200 = (x + w / 2, 674, false) := by
  simp only [calculate_popup_position, targetScreen, find?_getD_singleton,
    yBelowOf, yAboveOf, elemBottomCocoa, elemTopCocoa]
  norm_num [ElementRect.center_x]

theorem checkClipboard_lastChangeCount (env : PollEnv) (pb : Pasteboard)
    (now : PyDateTime) (max_history : Nat) (st : MonitorState) :
    ((checkClipboard env pb now max_history st).1).lastChangeCount = pb.changeCount := by
  rw [checkClipboard]
  by_cases h : pb.changeCount = st.lastChangeCount
  · rw [if_pos h]
    exact h.symm
  · rw [if_neg h]
    dsimp only
    split <;> rfl

/-- C7: a second poll step against an unchanged pasteboard (same change
counter) returns the state of the first step unchanged — no new history
entries — and does not fire the change callback; moreover a detected
change carrying neither non-whitespace text nor a decodable image
creates no entry and fires no callback, but still records the change
counter so the same change is not re-processed. -/
theorem poll_idempotent (env : PollEnv) (pb : Pasteboard) (now1 now2 : PyDateTime)
    (max_history : Nat) (st : MonitorState) :
    checkClipboard env pb now2 max_history (checkClipboard env pb now1 max_history st).1 =
      ((checkClipboard env pb now1 max_history st).1, false) ∧
    (pb.changeCount ≠ st.lastChangeCount →
      pollHasText pb.stringContent = false →
      pollHasImage env pb = false →
      checkClipboard env pb now1 max_history st =
        ({ history := st.history, lastChangeCount := pb.changeCount }, false)) := by
  constructor
  · rw [checkClipboard,
      if_pos (checkClipboard_lastChangeCount env pb now1 max_history st).symm]
  · intro hne ht hi
    rw [pollHasImage] at hi
    rw [checkClipboard, if_neg hne]
    simp only [ht, hi, Bool.false_and, Bool.and_false, Bool.false_eq_true, if_false]

theorem poll_idempotent_witness :
    checkClipboard ⟨fun _ => false, fun _ => none, fun _ => false⟩
        ⟨1, none, [], none, none⟩ ⟨2024, 1, 1, 0, 0, 0, 0⟩ 50
        (checkClipboard ⟨fun _ => false, fun _ => none, fun _ => false⟩
          ⟨1, none, [], none, none⟩ ⟨2024, 1, 1, 0, 0, 0, 0⟩ 50 ⟨[], 0⟩).1 =
      ((checkClipboard ⟨fun _ => false, fun _ => none, fun _ => false⟩
          ⟨1, none, [], none, none⟩ ⟨2024, 1, 1, 0, 0, 0, 0⟩ 50 ⟨[], 0⟩).1, false) ∧
    checkClipboard ⟨fun _ => false, fun _ => none, fun _ => false⟩
        ⟨1, none, [], none, none⟩ ⟨2024, 1, 1, 0, 0, 0, 0⟩ 50 ⟨[], 0⟩ =
      ({ history := [], lastChangeCount := 1 }, false) :=
  ⟨(poll_idempotent ⟨fun _ => false, fun _ => none, fun _ => false⟩
      ⟨1, none, [], none, none⟩ ⟨2024, 1, 1, 0, 0, 0, 0⟩ ⟨2024, 1, 1, 0, 0, 0, 0⟩
      50 ⟨[], 0⟩).1,
   (poll_idempotent ⟨fun _ => false, fun _ => none, fun _ => false⟩
      ⟨1, none, [], none, none⟩ ⟨2024, 1, 1, 0, 0, 0, 0⟩ ⟨2024, 1, 1, 0, 0, 0, 0⟩
      50 ⟨[], 0⟩).2 (by decide) rfl rfl⟩

theorem addToHistory_length_le (max_history : Nat) (a : AddCall)
    (h : List ClipboardItem) :
    (addToHistory max_history a h).length ≤ max_history := by
  rw [addToHistory]
  by_cases hl : (mkItem a :: dedupFilter a h).length > max_history
  · rw [if_pos hl]
    simp [List.length_take]
  · rw [if_neg hl]
    omega

theorem loadItems_length_le (env : LoadEnv) :
    ∀ items : List StoredItem, (loadItems env items).length ≤ items.length := by
  intro items
  induction items with
  | nil => simp [loadItems]
  | cons sit rest ih =>
      rw [loadItems]
      cases loadItem env sit with
      | none => simp
      | some it => simpa using ih

/-- C2 (amended): after every `add` the history length is at most
`max_history`, and an over-cap add evicts from the end — the result is a
prefix of the deduplicated history with the new entry prepended.  `load`
however does not enforce the cap: it yields at most one entry per record
of the persisted file but is not bounded by `max_history`. -/
theorem cap_invariant_amended (max_history : Nat) (a : AddCall)
    (h : List ClipboardItem) :
    (addToHistory max_history a h).length ≤ max_history ∧
    addToHistory max_history a h <+: mkItem a :: dedupFilter a h ∧
    ∀ (env : LoadEnv) (items : List StoredItem),
      (loadHistory env (some items)).length ≤ items.length := by
  refine ⟨addToHistory_length_le max_history a h, ?_, ?_⟩
  · rw [addToHistory]
    by_cases hl : (mkItem a :: dedupFilter a h).length > max_history
    · rw [if_pos hl]
      exact List.take_prefix _ _
    · rw [if_neg hl]
  · intro env items
    exact loadItems_length_le env items

/-- C2 counterexample: the claimed size bound does not hold after
`load()` — `_load_history` never consults `max_history`.  With the cap
configured to 1, a persisted file holding two records loads to a history
of length 2. -/
theorem load_ignores_cap_counterexample :
    ¬((loadHistory ⟨fun _ => false, fun _ => false⟩
        (some [⟨"text", "2024-01-01T00:00:00".toList, some ['a'], none⟩,
               ⟨"text", "2024-01-01T00:00:00".toList, some ['b'], none⟩])).length ≤ 1) := by
  decide

theorem b64encode_ne_nil : ∀ {bs : List Nat}, bs ≠ [] → b64encode bs ≠ []
  | [], h => absurd rfl h
  | [_], _ => by simp [b64encode]
  | [_, _], _ => by simp [b64encode]
  | _ :: _ :: _ :: _, _ => by simp [b64encode]

theorem loadItem_saveItem (env : LoadEnv) (it : ClipboardItem)
    (himg : ∀ bs, it.image_data = some bs → bs ≠ [] ∧ ∀ b ∈ bs, b < 256)
    (hts : it.timestamp.Valid) :
    ∃ tb : Bool, loadItem env (saveItem it) = some { it with thumbnail := tb } := by
  cases hid : it.image_data with
  | none =>
      refine ⟨false, ?_⟩
      rw [loadItem, saveItem]
      simp only [hid, Option.bind_eq_bind, Option.some_bind,
        fromisoformat_isoformat it.timestamp hts]
  | some bs =>
      obtain ⟨hne, hlt⟩ := himg bs hid
      refine ⟨env.imgOk bs && env.thumbOk bs, ?_⟩
      rw [loadItem, saveItem]
      have hbe : bs.isEmpty = false := by simpa using hne
      have hee : (b64encode bs).isEmpty = false := by
        simpa using b64encode_ne_nil hne
      simp only [hid, hbe, Bool.false_eq_true, if_false, hee,
        b64decode_b64encode bs hlt, Option.bind_eq_bind, Option.some_bind,
        fromisoformat_isoformat it.timestamp hts]

/-- C3: saving a history (base64-encoding image bytes, ISO-formatting
timestamps) and loading it back reproduces the history exactly in
content and order — same content type, text, timestamp, and image bytes
for every entry — for histories of Text, Image, and Mixed entries (any
entry whose image bytes are present is nonempty with byte values < 256,
as every reachable history is). -/
theorem save_load_roundtrip (env : LoadEnv) (h : List ClipboardItem)
    (himg : ∀ it ∈ h, ∀ bs, it.image_data = some bs → bs ≠ [] ∧ ∀ b ∈ bs, b < 256)
    (hts : ∀ it ∈ h, it.timestamp.Valid) :
    (loadHistory env (some (saveHistory h))).map
        (fun it => (it.content_type, it.timestamp, it.text_content, it.image_data)) =
      h.map (fun it => (it.content_type, it.timestamp, it.text_content, it.image_data)) := by
  induction h with
  | nil => rfl
  | cons it rest ih =>
      obtain ⟨tb, hload⟩ := loadItem_saveItem env it
        (fun bs hbs => himg it (by simp) bs hbs) (hts it (by simp))
      rw [saveHistory, List.map_cons, loadHistory, loadItems, hload]
      have htail : loadItems env (List.map saveItem rest) =
          loadHistory env (some (saveHistory rest)) := rfl
      rw [List.map_cons, List.map_cons, htail]
      exact congrArg₂ _ rfl (ih (fun x hx bs hbs => himg x (by simp [hx]) bs hbs)
        (fun x hx => hts x (by simp [hx])))

theorem save_load_roundtrip_witness :
    (loadHistory ⟨fun _ => true, fun _ => true⟩
        (some (saveHistory
          [{ content_type := "text", timestamp := ⟨2024, 3, 7, 15, 30, 45, 123456⟩,
             text_content := some ['h', 'i'] },
           { content_type := "image", timestamp := ⟨2024, 3, 7, 15, 30, 46, 0⟩,
             image_data := some [137, 80, 78, 71], thumbnail := true },
           { content_type := "mixed", timestamp := ⟨2024, 3, 7, 15, 30, 47, 7⟩,
             text_content := some ['y', 'o'], image_data := some [0, 255],
             thumbnail := true }]))).map
        (fun it => (it.content_type, it.timestamp, it.text_content, it.image_data)) =
      [({ content_type := "text", timestamp := ⟨2024, 3, 7, 15, 30, 45, 123456⟩,
          text_content := some ['h', 'i'] } : ClipboardItem),
       { content_type := "image", timestamp := ⟨2024, 3, 7, 15, 30, 46, 0⟩,
         image_data := some [137, 80, 78, 71], thumbnail := true },
       { content_type := "mixed", timestamp := ⟨2024, 3, 7, 15, 30, 47, 7⟩,
         text_content := some ['y', 'o'], image_data := some [0, 255],
         thumbnail := true }].map
        (fun it => (it.content_type, it.timestamp, it.text_content, it.image_data)) :=
  save_load_roundtrip ⟨fun _ => true, fun _ => true⟩ _
    (by
      intro it hit bs hbs
      simp only [List.mem_cons, List.not_mem_nil, or_false] at hit
      rcases hit with rfl | rfl | rfl
      · exact absurd hbs (by simp)
      · simp only [Option.some.injEq] at hbs
        subst hbs
        exact ⟨by decide, by decide⟩
      · simp only [Option.some.injEq] at hbs
        subst hbs
        exact ⟨by decide, by decide⟩)
    (by
      intro it hit
      simp only [List.mem_cons, List.not_mem_nil, or_false] at hit
      rcases hit with rfl | rfl | rfl <;> decide)

/-- C9: a decode failure for the whole persisted file is swallowed and
yields an empty history; a decode failure affecting a single embedded
image (the platform image constructor rejecting the bytes) is tolerated
by dropping only that entry's thumbnail — its text content and image
bytes still load, and no other entry is lost. -/
theorem load_failure_policy (env : LoadEnv) :
    loadHistory env none = [] ∧
    ∀ items : List StoredItem, (∀ sit ∈ items, GoodRecord sit) →
      List.Forall₂ (fun (sit : StoredItem) (it : ClipboardItem) =>
          it.content_type = sit.content_type ∧
          it.text_content = sit.text_content ∧
          ((sit.image_data = none ∨ sit.image_data = some []) → it.image_data = none) ∧
          ∀ s, sit.image_data = some s → s ≠ [] →
            ∃ bs, b64decode s = some bs ∧ it.image_data = some bs ∧
              (env.imgOk bs = false → it.thumbnail = false))
        items (loadHistory env (some items)) := by
  refine ⟨rfl, ?_⟩
  intro items
  induction items with
  | nil => exact fun _ => List.Forall₂.nil
  | cons sit rest ih =>
      intro hgood
      obtain ⟨⟨d, hd⟩, himg⟩ := hgood sit (by simp)
      have htail : List.Forall₂ _ rest (loadItems env rest) :=
        ih fun x hx => hgood x (by simp [hx])
      cases hsd : sit.image_data with
      | none =>
          have hli : loadItem env sit =
              some ⟨sit.content_type, d, sit.text_content, none, false⟩ := by
            rw [loadItem]
            simp only [hsd, Option.bind_eq_bind, Option.some_bind, hd]
          rw [loadHistory, loadItems, hli]
          refine List.Forall₂.cons ⟨rfl, rfl, fun _ => rfl, ?_⟩ htail
          intro s hs
          rw [hsd] at hs
          cases hs
      | some s0 =>
          by_cases hse : s0 = []
          · subst hse
            have hli : loadItem env sit =
                some ⟨sit.content_type, d, sit.text_content, none, false⟩ := by
              rw [loadItem]
              simp only [hsd, List.isEmpty_nil, if_true, Option.bind_eq_bind,
                Option.some_bind, hd]
            rw [loadHistory, loadItems, hli]
            refine List.Forall₂.cons ⟨rfl, rfl, fun _ => rfl, ?_⟩ htail
            intro s hs hne
            rw [hsd] at hs
            simp only [Option.some.injEq] at hs
            exact absurd hs.symm hne
          · obtain ⟨bs, hbs⟩ := himg s0 hsd hse
            have hsee : s0.isEmpty = false := by simpa using hse
            have hli : loadItem env sit =
                some ⟨sit.content_type, d, sit.text_content, some bs,
                      env.imgOk bs && env.thumbOk bs⟩ := by
              rw [loadItem]
              simp only [hsd, hsee, Bool.false_eq_true, if_false, hbs,
                Option.bind_eq_bind, Option.some_bind, hd]
            rw [loadHistory, loadItems, hli]
            refine List.Forall₂.cons ⟨rfl, rfl, ?_, ?_⟩ htail
            · intro h0
              rw [hsd] at h0
              rcases h0 with h0 | h0
              · cases h0
              · simp only [Option.some.injEq] at h0
                exact absurd h0 hse
            · intro s hs hne
              rw [hsd] at hs
              simp only [Option.some.injEq] at hs
              subst hs
              exact ⟨bs, hbs, rfl, fun hio => by simp [hio]⟩

theorem load_failure_policy_witness :
    loadHistory ⟨fun _ => false, fun _ => true⟩ none = [] ∧
    List.Forall₂ (fun (sit : StoredItem) (it : ClipboardItem) =>
        it.content_type = sit.content_type ∧
        it.text_content = sit.text_content ∧
        ((sit.image_data = none ∨ sit.image_data = some []) → it.image_data = none) ∧
        ∀ s, sit.image_data = some s → s ≠ [] →
          ∃ bs, b64decode s = some bs ∧ it.image_data = some bs ∧
            ((fun (_ : List Nat) => false) bs = false → it.thumbnail = false))
      [⟨"image", "2024-01-01T00:00:00".toList, none, some "iQ==".toList⟩,
       ⟨"text", "2024-01-01T00:00:01".toList, some ['h', 'i'], none⟩]
      (loadHistory ⟨fun _ => false, fun _ => true⟩
        (some [⟨"image", "2024-01-01T00:00:00".toList, none, some "iQ==".toList⟩,
               ⟨"text", "2024-01-01T00:00:01".toList, some ['h', 'i'], none⟩])) :=
  ⟨(load_failure_policy ⟨fun _ => false, fun _ => true⟩).1,
   (load_failure_policy ⟨fun _ => false, fun _ => true⟩).2
     [⟨"image", "2024-01-01T00:00:00".toList, none, some "iQ==".toList⟩,
      ⟨"text", "2024-01-01T00:00:01".toList, some ['h', 'i'], none⟩]
     (by
       intro sit hsit
       simp only [List.mem_cons, List.not_mem_nil, or_false] at hsit
       rcases hsit with rfl | rfl
       · exact ⟨⟨⟨2024, 1, 1, 0, 0, 0, 0⟩, by decide⟩, by
           intro s hs hne
           simp only [Option.some.injEq] at hs
           subst hs
           exact ⟨[137], by decide⟩⟩
       · exact ⟨⟨⟨2024, 1, 1, 0, 0, 1, 0⟩, by decide⟩, by
           intro s hs hne
           cases hs⟩)⟩

theorem dedupFilter_sublist (a : AddCall) (h : List ClipboardItem) :
    List.Sublist (dedupFilter a h) h := by
  rw [dedupFilter]
  split_ifs <;> first
    | exact List.filter_sublist _
    | exact List.Sublist.refl _

theorem mem_dedupFilter_not_key (a : AddCall) (hwf : WFAdd a)
    (h : List ClipboardItem) :
    ∀ it ∈ dedupFilter a h, ¬ sameKey (mkItem a) it := by
  rcases hwf with ⟨ha, htr⟩ | ⟨ha, hat, htr⟩ | ⟨ha, htr, hbr⟩
  · rw [dedupFilter, if_pos ⟨ha, htr⟩]
    intro it hit hsk
    have hkeep := of_decide_eq_true (List.mem_filter.mp hit).2
    rcases hsk with ⟨hx, hy, hteq⟩ | ⟨hx, -, -⟩ | ⟨hx, -, -, -⟩
    · exact hkeep ⟨hy, hteq.symm⟩
    · rw [ha] at hx
      exact absurd hx (by decide)
    · rw [ha] at hx
      exact absurd hx (by decide)
  · rw [dedupFilter, if_neg (fun hc => absurd (hc.1.symm.trans ha) (by decide)),
      if_pos ⟨ha, htr⟩]
    intro it hit hsk
    have hkeep := of_decide_eq_true (List.mem_filter.mp hit).2
    rcases hsk with ⟨hx, -, -⟩ | ⟨hx, hy, hieq⟩ | ⟨hx, -, -, -⟩
    · rw [ha] at hx
      exact absurd hx (by decide)
    · exact hkeep ⟨hy, hieq.symm⟩
    · rw [ha] at hx
      exact absurd hx (by decide)
  · rw [dedupFilter, if_neg (fun hc => absurd (hc.1.symm.trans ha) (by decide)),
      if_neg (fun hc => absurd (hc.1.symm.trans ha) (by decide)),
      if_pos ⟨ha, htr, hbr⟩]
    intro it hit hsk
    have hkeep := of_decide_eq_true (List.mem_filter.mp hit).2
    rcases hsk with ⟨hx, -, -⟩ | ⟨hx, -, -⟩ | ⟨hx, hy, hteq, hieq⟩
    · rw [ha] at hx
      exact absurd hx (by decide)
    · rw [ha] at hx
      exact absurd hx (by decide)
    · exact hkeep ⟨hy, hteq.symm, hieq.symm⟩

theorem goodHistory_addToHistory (max_history : Nat) (a : AddCall)
    (h : List ClipboardItem) (hg : GoodHistory h) (hwf : WFAdd a) :
    GoodHistory (addToHistory max_history a h) := by
  have hsub : List.Sublist (dedupFilter a h) h := dedupFilter_sublist a h
  have hcons : GoodHistory (mkItem a :: dedupFilter a h) := by
    constructor
    · rw [List.pairwise_cons]
      exact ⟨mem_dedupFilter_not_key a hwf h, hg.1.sublist hsub⟩
    · intro it hit
      rcases List.mem_cons.mp hit with rfl | hit
      · exact hwf
      · exact hg.2 it (hsub.subset hit)
  rw [addToHistory]
  split
  · exact ⟨hcons.1.sublist (List.take_sublist _ _),
      fun it hit => hcons.2 it ((List.take_sublist _ _).subset hit)⟩
  · exact hcons

theorem goodHistory_applyAdds (max_history : Nat) (calls : List AddCall)
    (hwf : ∀ a ∈ calls, WFAdd a) :
    GoodHistory (applyAdds max_history calls) ∧
    (applyAdds max_history calls).length ≤ max_history := by
  have aux : ∀ (cs : List AddCall) (init : List ClipboardItem),
      (∀ a ∈ cs, WFAdd a) → GoodHistory init → init.length ≤ max_history →
      GoodHistory (cs.foldl (fun hh a => addToHistory max_history a hh) init) ∧
      (cs.foldl (fun hh a => addToHistory max_history a hh) init).length ≤ max_history := by
    intro cs
    induction cs with
    | nil => exact fun init _ hg hl => ⟨hg, hl⟩
    | cons c rest ih =>
        intro init hcs hg hl
        rw [List.foldl_cons]
        exact ih _ (fun a ha => hcs a (by simp [ha]))
          (goodHistory_addToHistory max_history c init hg (hcs c (by simp)))
          (addToHistory_length_le max_history c init)
  exact aux calls [] hwf ⟨List.Pairwise.nil, fun it hit => absurd hit (List.not_mem_nil it)⟩
    (by simp)

theorem sameKey_of_identClip (x y : ClipboardItem) (hx : WFEntry x)
    (hid : identClip x y) : sameKey x y := by
  obtain ⟨h1, h2, h3⟩ := hid
  rcases hx with ⟨ha, -⟩ | ⟨ha, -, -⟩ | ⟨ha, -, -⟩
  · exact Or.inl ⟨ha, h1 ▸ ha, h2⟩
  · exact Or.inr (Or.inl ⟨ha, h1 ▸ ha, h3⟩)
  · exact Or.inr (Or.inr ⟨ha, h1 ▸ ha, h2, h3⟩)

theorem filter_length_of_unique {α : Type} (p : α → Bool) :
    ∀ l : List α, (l.Pairwise fun x y => ¬(p x = false ∧ p y = false)) →
      ∀ E ∈ l, p E = false → (l.filter p).length = l.length - 1 := by
  intro l
  induction l with
  | nil =>
      intro _ E hE
      cases hE
  | cons x xs ih =>
      intro hp E hE hpE
      rw [List.pairwise_cons] at hp
      cases hx : p x with
      | false =>
          have hall : ∀ y ∈ xs, p y = true := by
            intro y hy
            cases hb : p y with
            | false => exact absurd ⟨hx, hb⟩ (hp.1 y hy)
            | true => rfl
          rw [List.filter_cons_of_neg (by simp [hx]), List.filter_eq_self.mpr hall]
          simp
      | true =>
          have hEx : E ∈ xs := by
            rcases List.mem_cons.mp hE with rfl | hmem
            · rw [hx] at hpE
              cases hpE
            · exact hmem
          have hlen : 1 ≤ xs.length := List.length_pos.mpr (List.ne_nil_of_mem hEx)
          rw [List.filter_cons_of_pos (by simp [hx])]
          have hrec := ih hp.2 E hEx hpE
          simp only [List.length_cons, hrec]
          omega

theorem addToHistory_promote (max_history : Nat) (a : AddCall)
    (h : List ClipboardItem) (hwfa : WFAdd a) (hg : GoodHistory h)
    (hlen : h.length ≤ max_history) (E : ClipboardItem) (hE : E ∈ h)
    (hid : identClip E (mkItem a)) :
    (addToHistory max_history a h).length = h.length ∧
    (addToHistory max_history a h).head? = some (mkItem a) := by
  have hd : (dedupFilter a h).length = h.length - 1 := by
    rcases hwfa with ⟨ha, htr⟩ | ⟨ha, hat, htr⟩ | ⟨ha, htr, hbr⟩
    · rw [dedupFilter, if_pos ⟨ha, htr⟩]
      refine filter_length_of_unique _ h (hg.1.imp ?_) E hE ?_
      · intro x y hnsk hpf
        simp only [decide_not, Bool.not_eq_false', decide_eq_true_eq] at hpf
        exact hnsk (Or.inl ⟨hpf.1.1, hpf.2.1, hpf.1.2.trans hpf.2.2.symm⟩)
      · simp only [decide_not, Bool.not_eq_false', decide_eq_true_eq]
        exact ⟨hid.1.trans ha, hid.2.1⟩
    · rw [dedupFilter, if_neg (fun hc => absurd (hc.1.symm.trans ha) (by decide)),
        if_pos ⟨ha, htr⟩]
      refine filter_length_of_unique _ h (hg.1.imp ?_) E hE ?_
      · intro x y hnsk hpf
        simp only [decide_not, Bool.not_eq_false', decide_eq_true_eq] at hpf
        exact hnsk (Or.inr (Or.inl ⟨hpf.1.1, hpf.2.1, hpf.1.2.trans hpf.2.2.symm⟩))
      · simp only [decide_not, Bool.not_eq_false', decide_eq_true_eq]
        exact ⟨hid.1.trans ha, hid.2.2⟩
    · rw [dedupFilter, if_neg (fun hc => absurd (hc.1.symm.trans ha) (by decide)),
        if_neg (fun hc => absurd (hc.1.symm.trans ha) (by decide)),
        if_pos ⟨ha, htr, hbr⟩]
      refine filter_length_of_unique _ h (hg.1.imp ?_) E hE ?_
      · intro x y hnsk hpf
        simp only [decide_not, Bool.not_eq_false', decide_eq_true_eq] at hpf
        exact hnsk (Or.inr (Or.inr ⟨hpf.1.1, hpf.2.1, hpf.1.2.1.trans hpf.2.2.1.symm,
          hpf.1.2.2.trans hpf.2.2.2.symm⟩))
      · simp only [decide_not, Bool.not_eq_false', decide_eq_true_eq]
        exact ⟨hid.1.trans ha, hid.2.1, hid.2.2⟩
  have hpos : 0 < h.length := List.length_pos.mpr (List.ne_nil_of_mem hE)
  have hlen2 : (mkItem a :: dedupFilter a h).length = h.length := by
    rw [List.length_cons, hd]
    omega
  rw [addToHistory, if_neg (by omega)]
  exact ⟨hlen2, rfl⟩

/-- C1: over any sequence of well-formed `_add_to_history` calls (as
`_check_clipboard` issues them) the history never holds two entries
identical in content type, text, and image bytes; and adding a duplicate
of an existing entry E removes the prior occurrence and prepends the new
one — E moves to the front and the history length is unchanged. -/
theorem history_dedup_invariant (max_history : Nat) (calls : List AddCall)
    (hwf : ∀ a ∈ calls, WFAdd a) :
    ((applyAdds max_history calls).Pairwise fun x y => ¬ identClip x y) ∧
    ∀ a, WFAdd a → ∀ E ∈ applyAdds max_history calls, identClip E (mkItem a) →
      (addToHistory max_history a (applyAdds max_history calls)).length =
        (applyAdds max_history calls).length ∧
      (addToHistory max_history a (applyAdds max_history calls)).head? =
        some (mkItem a) := by
  obtain ⟨hg, hlen⟩ := goodHistory_applyAdds max_history calls hwf
  constructor
  · refine List.Pairwise.imp_of_mem ?_ hg.1
    intro x y hx _ hnsk hid
    exact hnsk (sameKey_of_identClip x y (hg.2 x hx) hid)
  · intro a hwfa E hE hid
    exact addToHistory_promote max_history a _ hwfa hg hlen E hE hid

theorem history_dedup_invariant_witness :
    ((applyAdds 50 [⟨"text", some ['a'], none, false, ⟨2024, 1, 1, 0, 0, 0, 0⟩⟩]).Pairwise
        fun x y => ¬ identClip x y) ∧
    (addToHistory 50 ⟨"text", some ['a'], none, false, ⟨2024, 1, 1, 0, 0, 0, 1⟩⟩
        (applyAdds 50 [⟨"text", some ['a'], none, false, ⟨2024, 1, 1, 0, 0, 0, 0⟩⟩])).length =
      (applyAdds 50 [⟨"text", some ['a'], none, false, ⟨2024, 1, 1, 0, 0, 0, 0⟩⟩]).length ∧
    (addToHistory 50 ⟨"text", some ['a'], none, false, ⟨2024, 1, 1, 0, 0, 0, 1⟩⟩
        (applyAdds 50 [⟨"text", some ['a'], none, false, ⟨2024, 1, 1, 0, 0, 0, 0⟩⟩])).head? =
      some (mkItem ⟨"text", some ['a'], none, false, ⟨2024, 1, 1, 0, 0, 0, 1⟩⟩) :=
  have ht := history_dedup_invariant 50
    [⟨"text", some ['a'], none, false, ⟨2024, 1, 1, 0, 0, 0, 0⟩⟩]
    (fun a ha => by
      simp only [List.mem_singleton] at ha
      subst ha
      exact Or.inl ⟨rfl, rfl⟩)
  ⟨ht.1,
   ht.2 ⟨"text", some ['a'], none, false, ⟨2024, 1, 1, 0, 0, 0, 1⟩⟩ (Or.inl ⟨rfl, rfl⟩)
     (mkItem ⟨"text", some ['a'], none, false, ⟨2024, 1, 1, 0, 0, 0, 0⟩⟩)
     (by decide) ⟨rfl, rfl, rfl⟩⟩

/-- C4 counterexample: the clamp does not keep the popup on-display
when the popup is taller than the target screen's visible area.  On a
100-unit screen, neither side fits a 200-unit popup, the below side is
chosen and clamped to the bottom (y = 0), and the popup's top edge
0 + 200 = 200 exceeds the screen's top bound 100, so it renders
off-display. -/
theorem popup_offscreen_counterexample :
    calculate_popup_position [⟨0, 0, 100, 100, 0, 0, 100, 100⟩] ⟨50, 10, 10, 10⟩ 200 =
      (55, 0, false) ∧
    ¬((calculate_popup_position [⟨0, 0, 100, 100, 0, 0, 100, 100⟩]
          ⟨50, 10, 10, 10⟩ 200).2.1 + 200 ≤
      (targetScreen ⟨0, 0, 100, 100, 0, 0, 100, 100⟩ [] ⟨50, 10, 10, 10⟩).visY +
        (targetScreen ⟨0, 0, 100, 100, 0, 0, 100, 100⟩ [] ⟨50, 10, 10, 10⟩).visH) := by
  constructor
  · simp only [calculate_popup_position, targetScreen, find?_getD_singleton,
      yBelowOf, yAboveOf, elemBottomCocoa, elemTopCocoa]
    norm_num [ElementRect.center_x]
  · simp only [calculate_popup_position, targetScreen, find?_getD_singleton,
      yBelowOf, yAboveOf, elemBottomCocoa, elemTopCocoa]
    norm_num [ElementRect.center_x]

/-- C4 (amended): the below placement is chosen iff
`y_below ≥ screenMinY`; otherwise the above placement is chosen iff
`y_above + popupHeight ≤ screenMaxY`; otherwise the side with more
available space (`screenMaxY − flippedTop` vs `flippedBottom −
screenMinY`) is chosen, the chosen edge is clamped to that side's screen
bound, and — provided the popup is no taller than the screen's visible
height — the clamped placement stays entirely within the screen's
vertical bounds. -/
theorem popup_position_policy_amended (primary : Screen) (rest : List Screen)
    (r : ElementRect) (ph : ℚ) :
    (calculate_popup_position (primary :: rest) r ph =
        (r.center_x, yBelowOf primary r ph, false) ↔
      yBelowOf primary r ph ≥ (targetScreen primary rest r).visY) ∧
    (¬(yBelowOf primary r ph ≥ (targetScreen primary rest r).visY) →
      (calculate_popup_position (primary :: rest) r ph =
          (r.center_x, yAboveOf primary r, true) ↔
        yAboveOf primary r + ph ≤
          (targetScreen primary rest r).visY + (targetScreen primary rest r).visH)) ∧
    (¬(yBelowOf primary r ph ≥ (targetScreen primary rest r).visY) →
     ¬(yAboveOf primary r + ph ≤
        (targetScreen primary rest r).visY + (targetScreen primary rest r).visH) →
      (((targetScreen primary rest r).visY + (targetScreen primary rest r).visH -
          elemTopCocoa primary r >
            elemBottomCocoa primary r - (targetScreen primary rest r).visY) ↔
        (calculate_popup_position (primary :: rest) r ph).2.2 = true) ∧
      (ph ≤ (targetScreen primary rest r).visH →
        (targetScreen primary rest r).visY ≤
          (calculate_popup_position (primary :: rest) r ph).2.1 ∧
        (calculate_popup_position (primary :: rest) r ph).2.1 + ph ≤
          (targetScreen primary rest r).visY + (targetScreen primary rest r).visH)) := by
  simp only [calculate_popup_position]
  by_cases hb : yBelowOf primary r ph ≥ (targetScreen primary rest r).visY
  · rw [if_pos hb]
    refine ⟨iff_of_true rfl hb, fun hnb => absurd hb hnb, fun hnb => absurd hb hnb⟩
  · rw [if_neg hb]
    by_cases ha : yAboveOf primary r + ph ≤
        (targetScreen primary rest r).visY + (targetScreen primary rest r).visH
    · rw [if_pos ha]
      refine ⟨?_, fun _ => iff_of_true rfl ha, fun _ hna => absurd ha hna⟩
      refine iff_of_false ?_ hb
      intro heq
      rw [Prod.mk.injEq, Prod.mk.injEq] at heq
      exact Bool.true_eq_false.mp heq.2.2
    · rw [if_neg ha]
      by_cases hs : (targetScreen primary rest r).visY + (targetScreen primary rest r).visH -
          elemTopCocoa primary r >
            elemBottomCocoa primary r - (targetScreen primary rest r).visY
      · rw [if_pos hs, if_pos (by push_neg at ha; linarith [ha] :
          yAboveOf primary r + ph >
            (targetScreen primary rest r).visY + (targetScreen primary rest r).visH)]
        refine ⟨?_, ?_, ?_⟩
        · refine iff_of_false ?_ hb
          intro heq
          rw [Prod.mk.injEq, Prod.mk.injEq] at heq
          exact Bool.true_eq_false.mp heq.2.2
        · intro _
          refine iff_of_false ?_ ha
          intro heq
          rw [Prod.mk.injEq, Prod.mk.injEq] at heq
          push_neg at ha
          have := heq.2.1
          linarith
        · intro _ _
          refine ⟨iff_of_true hs rfl, fun hph => ?_⟩
          constructor
          · simp only []
            linarith
          · simp only []
            linarith
      · rw [if_neg hs, if_pos (by push_neg at hb; linarith [hb] :
          yBelowOf primary r ph < (targetScreen primary rest r).visY)]
        refine ⟨?_, ?_, ?_⟩
        · refine iff_of_false ?_ hb
          intro heq
          rw [Prod.mk.injEq, Prod.mk.injEq] at heq
          push_neg at hb
          have := heq.2.1
          linarith
        · intro _
          refine iff_of_false ?_ ha
          intro heq
          rw [Prod.mk.injEq, Prod.mk.injEq] at heq
          exact Bool.false_eq_true.mp heq.2.2
        · intro _ _
          refine ⟨iff_of_false hs (by simp), fun hph => ?_⟩
          constructor
          · exact le_refl _
          · linarith

theorem popup_position_policy_amended_witness :
    calculate_popup_position [⟨0, 0, 800, 1000, 0, 0, 800, 1000⟩] ⟨50, 100, 30, 20⟩
        200 =
      (ElementRect.center_x ⟨50, 100, 30, 20⟩,
        yBelowOf ⟨0, 0, 800, 1000, 0, 0, 800, 1000⟩ ⟨50, 100, 30, 20⟩ 200, false) :=
  (popup_position_policy_amended ⟨0, 0, 800, 1000, 0, 0, 800, 1000⟩ [] ⟨50, 100, 30, 20⟩
    200).1.mpr (by
      simp only [targetScreen, find?_getD_singleton, yBelowOf, elemBottomCocoa]
      norm_num)

end ClipX
